import Mathlib

/-!
# Verification of the channel/asset mapping pipeline

Shallow embedding of `channel_asset_mapper.py`: a streaming CSV ingestion and
matching pipeline.  Pure data transformations of the source are translated into
executable Lean definitions; pandas parsing (an external library) is modelled
abstractly by the logical row content of a source together with the outcome of
the strict (c-engine) and fallback (python-engine) parse attempts.  Machine
strings are Lean `String`s; a pandas `NaN` cell is `Option.none`, and
`astype(str)` renders it as the literal string `"nan"`.
-/

deriving instance DecidableEq for Except

namespace ChannelAssetMapper

/-! ## Settings (module constants `MAX_CSV_FILES`, `CHUNK_SIZE`) -/

def MAX_CSV_FILES : Nat := 12

def CHUNK_SIZE : Nat := 200000

/-! ## String normalization

The source cleans cells with `.astype(str).str.replace("\xa0", " ").str.strip()`.
`astype(str)` maps a missing cell (NaN) to the string `"nan"`; `replace`
replaces every non-breaking space by an ordinary space; `strip` removes
leading and trailing whitespace.
-/

/-- The non-breaking space character replaced by `.str.replace("\xa0", " ")`. -/
def nbsp : Char := '\xa0'

/-- `.str.replace("\xa0", " ")`: replace every non-breaking space by a space. -/
def replaceNbsp (cs : List Char) : List Char :=
  cs.map (fun c => if c = nbsp then ' ' else c)

/-- Characters stripped by `.str.strip()` (whitespace). -/
def isStripChar (c : Char) : Bool := c.isWhitespace

/-- `.str.strip()`: drop leading and trailing whitespace characters. -/
def trimChars (cs : List Char) : List Char :=
  ((cs.dropWhile isStripChar).reverse.dropWhile isStripChar).reverse

/-- The cell-cleaning used throughout the source:
`.str.replace("\xa0", " ").str.strip()`. -/
def cleanStr (s : String) : String :=
  String.mk (trimChars (replaceNbsp s.data))

/-- `astype(str)` on a cell: a missing value (NaN) becomes the string `"nan"`. -/
def cellStr : Option String → String
  | none => "nan"
  | some s => s

/-- Python `str.lower()` (character-wise lowering). -/
def toLowerStr (s : String) : String := String.mk (s.data.map Char.toLower)

/-! ## The channel dictionary (a Python `dict`)

`load_channel_data` builds a Python `dict` by repeated assignment
`channel_dict[cid] = cname`; a repeated key overwrites the stored value.
We model the dict as an association list with in-place update on collision.
-/

abbrev ChannelDict := List (String × String)

/-- Key membership, as in `cid in set(channel_dict.keys())`. -/
def dictHasKey : ChannelDict → String → Bool
  | [], _ => false
  | p :: ps, k => decide (p.1 = k) || dictHasKey ps k

/-- Dictionary lookup `channel_dict[k]` / `Series.map(channel_dict)`. -/
def dictFind : ChannelDict → String → Option String
  | [], _ => none
  | p :: ps, k => if p.1 = k then some p.2 else dictFind ps k

/-- Python dict assignment `channel_dict[k] = v`: overwrite the binding of an
existing key in place, otherwise append the new binding. -/
def dictInsert (d : ChannelDict) (k v : String) : ChannelDict :=
  if dictHasKey d k then d.map (fun p => if p.1 = k then (k, v) else p)
  else d ++ [(k, v)]

/-! ## Reference Table Loader (`load_channel_data`) -/

/-- The table produced by `pd.read_excel(excel_file, header=None, dtype=str)`:
a rectangular grid of string-or-missing cells with `ncols` columns
(`df.shape[1]`).  An unreadable source (where `read_excel` raises) is
modelled as `Option.none` at the call site. -/
structure ExcelData where
  ncols : Nat
  rows : List (List (Option String))
deriving DecidableEq

/-- The validity test on a cleaned (id, name) pair:
`if cid and cid.lower() != "nan" and cname and cname.lower() != "nan"`. -/
def validPair (p : String × String) : Bool :=
  decide (p.1 ≠ "") && decide (toLowerStr p.1 ≠ "nan") &&
  decide (p.2 ≠ "") && decide (toLowerStr p.2 ≠ "nan")

/-- The cleaned (column 0, column 1) pairs of the reference table:
`df.iloc[:, 0]` and `df.iloc[:, 1]`, each `.astype(str)`-rendered,
non-breaking spaces replaced and stripped. -/
def cleanedPairs (d : ExcelData) : List (String × String) :=
  d.rows.map (fun r =>
    (cleanStr (cellStr (r.getD 0 none)), cleanStr (cellStr (r.getD 1 none))))

/-- The dict-building loop `for cid, cname in zip(channel_ids, channel_names)`. -/
def buildDict (pairs : List (String × String)) : ChannelDict :=
  pairs.foldl (fun d p => if validPair p then dictInsert d p.1 p.2 else d) []

def errMsgExcel : String := "Error reading Excel file"

def errMsgCols : String :=
  "Excel file must have at least 2 columns: Channel ID and Channel Name"

/-- `load_channel_data`: returns the mapping together with an optional
diagnostic (the `st.error` message).  `none` input models an unreadable
source, where `pd.read_excel` raises and the handler returns `{}`. -/
def load_channel_data : Option ExcelData → ChannelDict × Option String
  | none => ([], some errMsgExcel)
  | some d =>
    if d.ncols < 2 then ([], some errMsgCols)
    else (buildDict (cleanedPairs d), none)

/-! ## Resilient Chunk Reader (`iter_chunks_with_fallback`)

pandas parsing is external; a delimited source is modelled by its logical
row content (`rows`, each row a list of string-or-missing cells, `ncols`
columns after parsing) together with the outcome of the two parse attempts:
`strictFailAfter = some k` means the strict (`engine="c"`, `sep=","`) reader
raises a structural parse error after yielding `k` chunks (`none`: the strict
pass succeeds); `fallbackOk` tells whether the fallback
(`engine="python"`, `sep=None`) pass succeeds.
-/

structure CsvSource where
  ncols : Nat
  rows : List (List (Option String))
  strictFailAfter : Option Nat
  fallbackOk : Bool
deriving DecidableEq

/-- One chunk yielded by the reader: a DataFrame with `ncols` columns
(`chunk.shape[1]`) and a list of rows. -/
structure Batch where
  ncols : Nat
  rows : List (List (Option String))
deriving DecidableEq

/-- Fuel-indexed worker for chunking a row list (fuel bounds the recursion by
the length of the list, so the definition is structural and executable). -/
def splitChunksGo (n : Nat) : Nat → List (List (Option String)) → List (List (List (Option String)))
  | _, [] => []
  | 0, _ :: _ => []
  | f + 1, x :: xs => ((x :: xs).take n) :: splitChunksGo n f ((x :: xs).drop n)

/-- Split the parsed rows into successive chunks of `n` rows (the `chunksize`
behaviour of `pd.read_csv`); the last chunk may be shorter. -/
def splitChunks (n : Nat) (l : List (List (Option String))) : List (List (List (Option String))) :=
  splitChunksGo n l.length l

/-- The sequence of chunks a fully successful pass over `src` yields
(after `skiprows`). -/
def batchesOf (src : CsvSource) (skiprows chunksize : Nat) : List Batch :=
  (splitChunks chunksize (src.rows.drop skiprows)).map (fun rs => ⟨src.ncols, rs⟩)

/-- The parse-failure text surfaced when the fallback pass also raises
(the pandas exception text, abstracted to a fixed string). -/
def parseFailureMsg : String := "unable to parse file"

/-- `iter_chunks_with_fallback`: the full sequence of chunks the generator
yields to its consumer.  A successful strict pass yields every chunk once;
a strict pass failing after `k` chunks has already yielded those `k` chunks
(a generator cannot retract them), after which the fallback pass re-reads the
source from the start and yields every chunk again.  If the fallback pass
also raises, the exception propagates to the caller. -/
def iter_chunks_with_fallback (src : CsvSource) (skiprows chunksize : Nat) :
    Except String (List Batch) :=
  let bs := batchesOf src skiprows chunksize
  match src.strictFailAfter with
  | none => .ok bs
  | some k => if src.fallbackOk then .ok (bs.take k ++ bs) else .error parseFailureMsg

/-- The rows a chunk sequence delivers to the consumer, in order. -/
def flatRows (bs : List Batch) : List (List (Option String)) :=
  (bs.map Batch.rows).flatten

/-! ## Row Matcher/Projector (`process_csv_for_channel_assets`) -/

def ASSET_COL_IDX : Nat := 3

def CHANNEL_COL_IDX : Nat := 6

/-- The cleaned channel-id cell of a row (column G, index 6):
`chunk[CHANNEL_COL_IDX].astype(str).str.replace("\xa0", " ").str.strip()`. -/
def chCell (r : List (Option String)) : String :=
  cleanStr (cellStr (r.getD CHANNEL_COL_IDX none))

/-- The cleaned asset-id cell of a row (column D, index 3). -/
def assetCell (r : List (Option String)) : String :=
  cleanStr (cellStr (r.getD ASSET_COL_IDX none))

/-- One output row: Asset ID, Channel ID, Channel Name. -/
structure MatchRecord where
  assetId : String
  channelId : String
  channelName : String
deriving DecidableEq

/-- Per-chunk matching: skip the chunk when
`chunk.shape[1] <= max(ASSET_COL_IDX, CHANNEL_COL_IDX)`; otherwise clean both
target columns, keep the rows whose channel id is in the key set
(`isin(channel_ids_set)`), and project each kept row to
(Asset ID, Channel ID, Channel Name) with the name resolved by
`map(channel_dict)` (the key is present, so the `getD` default is never
reached). -/
def matchBatch (dict : ChannelDict) (b : Batch) : List MatchRecord :=
  if b.ncols ≤ max ASSET_COL_IDX CHANNEL_COL_IDX then []
  else
    (b.rows.filter (fun r => dictHasKey dict (chCell r))).map
      (fun r => ⟨assetCell r, chCell r, (dictFind dict (chCell r)).getD "nan"⟩)

/-- Outcome of `process_csv_for_channel_assets`: the returned value
(`none` models the Python `None`) and the `st.warning` diagnostic, if any. -/
structure ProcOut where
  result : Option (List MatchRecord)
  warning : Option String
deriving DecidableEq

/-- `process_csv_for_channel_assets`: stream the chunks, match each one and
concatenate; on any exception from the reader, warn naming the file and
return `None`; with no matches at all, return `None` silently. -/
def process_csv_for_channel_assets (dict : ChannelDict) (displayName : String)
    (src : CsvSource) : ProcOut :=
  match iter_chunks_with_fallback src 0 CHUNK_SIZE with
  | .error e => ⟨none, some ("Error reading " ++ displayName ++ ": " ++ e)⟩
  | .ok batches =>
    let ms := (batches.map (matchBatch dict)).flatten
    if ms.isEmpty then ⟨none, none⟩ else ⟨some ms, none⟩

/-! ## The per-file loop and the Aggregator -/

/-- The contribution of one input file to `all_results`
(`if res is not None and not res.empty: all_results.append(res)`). -/
def fileResult (dict : ChannelDict) (it : String × CsvSource) :
    Option (List MatchRecord) :=
  match (process_csv_for_channel_assets dict it.1 it.2).result with
  | some ms => if ms.isEmpty then none else some ms
  | none => none

/-- The main loop over `input_csv_items`: the `all_results` list in
processing order, together with the warnings emitted along the way. -/
def runFiles (dict : ChannelDict) (items : List (String × CsvSource)) :
    List (List MatchRecord) × List String :=
  (items.filterMap (fileResult dict),
   items.filterMap (fun it => (process_csv_for_channel_assets dict it.1 it.2).warning))

/-- The deduplication key: the (Asset ID, Channel ID) pair,
`drop_duplicates(subset=["Asset ID", "Channel ID"])`. -/
def recKey (r : MatchRecord) : String × String := (r.assetId, r.channelId)

/-- Membership of a key in the list of keys seen so far. -/
def keyMem (k : String × String) : List (String × String) → Bool
  | [] => false
  | x :: xs => decide (x = k) || keyMem k xs

/-- `drop_duplicates` keeping the first occurrence of each key. -/
def dedupFirst : List MatchRecord → List (String × String) → List MatchRecord
  | [], _ => []
  | r :: rs, seen =>
    if keyMem (recKey r) seen then dedupFirst rs seen
    else r :: dedupFirst rs (recKey r :: seen)

/-- Strict lexicographic order on character lists by code point (the order
Python uses to compare strings). -/
def strLt : List Char → List Char → Bool
  | [], [] => false
  | [], _ :: _ => true
  | _ :: _, [] => false
  | a :: as, b :: bs => decide (a.toNat < b.toNat) || (decide (a = b) && strLt as bs)

/-- The comparison of `sort_values(["Channel Name", "Asset ID"])`:
lexicographic (Channel Name, Asset ID) with the string order. -/
def recLE (a b : MatchRecord) : Bool :=
  strLt a.channelName.data b.channelName.data ||
  (decide (a.channelName = b.channelName) && !strLt b.assetId.data a.assetId.data)

/-- Stable insertion of a record into a sorted list (an equal key goes in
front, preserving the order of ties as pandas's stable multi-column sort
does). -/
def insertRec (r : MatchRecord) : List MatchRecord → List MatchRecord
  | [] => [r]
  | x :: xs => if recLE r x then r :: x :: xs else x :: insertRec r xs

/-- Stable sort by (Channel Name, Asset ID). -/
def sortRecords : List MatchRecord → List MatchRecord
  | [] => []
  | r :: rs => insertRec r (sortRecords rs)

/-- The aggregation pipeline producing `final_df`:
`pd.concat(all_results)`, then
`drop_duplicates(subset=["Asset ID", "Channel ID"])` (keep first), then
`sort_values(["Channel Name", "Asset ID"])`. -/
def final_df (all_results : List (List MatchRecord)) : List MatchRecord :=
  sortRecords (dedupFirst all_results.flatten [])

/-! ## ZIP handling (`extract_csv_filelikes_from_zip`) -/

/-- One archive entry of `ZipFile.infolist()`: its name, whether it is a
directory, and (for file entries) the modelled content of its bytes. -/
structure ZipEntry where
  filename : String
  isDir : Bool
  content : CsvSource
deriving DecidableEq

/-- `p` is a leading segment of `l` (character-wise). -/
def leadsList : List Char → List Char → Bool
  | [], _ => true
  | _ :: _, [] => false
  | p :: ps, c :: cs => decide (p = c) && leadsList ps cs

/-- `pat` occurs as a contiguous segment of `l` (the Python `in` test on
strings). -/
def containsSeg (pat : List Char) : List Char → Bool
  | [] => leadsList pat []
  | c :: cs => leadsList pat (c :: cs) || containsSeg pat cs

/-- The Python substring test `pat in s`. -/
def strContains (s pat : String) : Bool := containsSeg pat.data s.data

/-- Python `str.startswith`. -/
def strStarts (s pat : String) : Bool := leadsList pat.data s.data

/-- Python `str.endswith`. -/
def strEnds (s pat : String) : Bool := leadsList pat.data.reverse s.data.reverse

/-- `os.path.basename`: the part of the name after the last slash. -/
def basenameOf (s : String) : String :=
  String.mk ((s.data.reverse.takeWhile (fun c => decide (c ≠ '/'))).reverse)

/-- `extract_csv_filelikes_from_zip`: walk `infolist()` in order, skip
directories, empty base names, macOS metadata and hidden files, and collect
each entry whose base name ends in `.csv` case-insensitively, paired with its
base name. -/
def extract_csv_filelikes_from_zip (entries : List ZipEntry) :
    List (String × CsvSource) :=
  entries.filterMap (fun info =>
    if info.isDir then none
    else
      let base := basenameOf info.filename
      if base = "" then none
      else if strStarts base "__MACOSX" || strContains info.filename "/__MACOSX" then none
      else if strStarts base "." then none
      else if strEnds (toLowerStr base) ".csv" then some (base, info.content)
      else none)

/-! ## Main flow (input preparation, cap enforcement and the run) -/

/-- A single uploaded ZIP: whether `getvalue` / `ZipFile` succeed
(`readable`), and the archive entries. -/
structure ZipUpload where
  readable : Bool
  entries : List ZipEntry
deriving DecidableEq

def capMsg (n : Nat) : String :=
  "Maximum " ++ toString MAX_CSV_FILES ++ " CSV files allowed. You selected " ++
  toString n ++ "."

def zipReadMsg : String := "Could not read ZIP file"

def zipEmptyMsg : String := "The ZIP file contains no .csv files."

def zipCapMsg (n : Nat) : String :=
  "ZIP contains " ++ toString n ++ " CSVs. Maximum allowed: " ++
  toString MAX_CSV_FILES ++ "."

def noExcelMsg : String := "Please upload the Channel list Excel file first."

def noInputMsg : String := "Please upload CSV files or a ZIP containing CSV files."

def noChannelsMsg : String := "No valid channel data found in the Excel file."

def noMatchesMsg : String :=
  "No matching channel IDs found in any of the uploaded files."

/-- The input-preparation part of the script (lines before the button): the
direct-upload cap check, then the ZIP branch (extraction, emptiness and cap
checks) which, when a ZIP is present, replaces any direct uploads; each
`st.error` + `st.stop()` is an `Except.error`. -/
def prepareInputs (uploadedCsvs : List (String × CsvSource))
    (uploadedZip : Option ZipUpload) :
    Except String (List (String × CsvSource)) :=
  if MAX_CSV_FILES < uploadedCsvs.length then .error (capMsg uploadedCsvs.length)
  else
    match uploadedZip with
    | some z =>
      if z.readable then
        let extracted := extract_csv_filelikes_from_zip z.entries
        if extracted.isEmpty then .error zipEmptyMsg
        else if MAX_CSV_FILES < extracted.length then .error (zipCapMsg extracted.length)
        else .ok extracted
      else .error zipReadMsg
    | none => .ok uploadedCsvs

/-- The whole run, from the uploads to the final table: input preparation,
the presence checks behind the Generate button, loading the channel list,
the per-file loop and the aggregation.  An `Except.error` is a run that
stopped (`st.stop()`) with the given message and produced no result table;
a successful run carries the final table and the per-file warnings. -/
def runApp (excel : Option ExcelData) (uploadedCsvs : List (String × CsvSource))
    (uploadedZip : Option ZipUpload) :
    Except String (List MatchRecord × List String) :=
  match prepareInputs uploadedCsvs uploadedZip with
  | .error e => .error e
  | .ok items =>
    if excel.isNone then .error noExcelMsg
    else if items.isEmpty then .error noInputMsg
    else
      let loaded := load_channel_data excel
      if loaded.1.isEmpty then .error noChannelsMsg
      else
        let res := runFiles loaded.1 items
        if res.1.isEmpty then .error noMatchesMsg
        else .ok (final_df res.1, res.2)

/-! ## Lemmas: chunk coverage -/

theorem splitChunksGo_flatten (n : Nat) (hn : 0 < n) :
    ∀ (f : Nat) (l : List (List (Option String))), l.length ≤ f →
      (splitChunksGo n f l).flatten = l := by
  intro f
  induction f with
  | zero =>
    intro l hl
    cases l with
    | nil => rfl
    | cons x xs => simp at hl
  | succ f ih =>
    intro l hl
    cases l with
    | nil => rfl
    | cons x xs =>
      simp only [splitChunksGo, List.flatten_cons]
      rw [ih ((x :: xs).drop n) ?_, List.take_append_drop]
      have hlen : ((x :: xs).drop n).length = (x :: xs).length - n := by
        simp [List.length_drop]
      simp only [List.length_cons] at hlen hl
      omega

theorem splitChunks_flatten (n : Nat) (hn : 0 < n)
    (l : List (List (Option String))) : (splitChunks n l).flatten = l :=
  splitChunksGo_flatten n hn l.length l le_rfl

theorem flatRows_batchesOf (src : CsvSource) (sk cs : Nat) (h : 0 < cs) :
    flatRows (batchesOf src sk cs) = src.rows.drop sk := by
  unfold flatRows batchesOf
  rw [List.map_map]
  have hcomp : (Batch.rows ∘ fun rs => (⟨src.ncols, rs⟩ : Batch)) = id := rfl
  rw [hcomp, List.map_id]
  exact splitChunks_flatten cs h _

theorem flatRows_append (a b : List Batch) :
    flatRows (a ++ b) = flatRows a ++ flatRows b := by
  simp [flatRows]

theorem flatRows_take_append_drop (bs : List Batch) (k : Nat) :
    flatRows (bs.take k) ++ flatRows (bs.drop k) = flatRows bs := by
  rw [← flatRows_append, List.take_append_drop]

/-! ## Claim C1 -/

/-- The C1 counterexample source: two rows, strict parsing raising after one
yielded single-row chunk, fallback succeeding. -/
def cexSrc : CsvSource := ⟨1, [[some "a"], [some "b"]], some 1, true⟩

/-- C1 (counterexample): the claim says that when the strict attempt raises
after some chunks were already yielded, those chunks are abandoned and no
input row is delivered to the consumer twice.  On `cexSrc` (strict failure
after one yielded chunk of one row, fallback succeeding, chunk size 1) the
generator delivers the first input row twice: once from the abandoned strict
attempt and once from the fallback pass. -/
theorem c1_counterexample :
    iter_chunks_with_fallback cexSrc 0 1 =
      .ok [⟨1, [[some "a"]]⟩, ⟨1, [[some "a"]]⟩, ⟨1, [[some "b"]]⟩] ∧
    (flatRows [⟨1, [[some "a"]]⟩, ⟨1, [[some "a"]]⟩, ⟨1, [[some "b"]]⟩]).count
      [some "a"] = 2 := by
  exact ⟨by decide, by decide⟩

/-- C1 (amended): for every seekable source and positive chunk size, if the
strict pass succeeds the reader yields a chunk sequence covering every input
row exactly once, in original row order.  If the strict attempt raises a
structural parse error after `k` chunks were already yielded and the fallback
pass succeeds, the already-yielded chunks are NOT abandoned: the delivered
row sequence is `p ++ rows`, where `p` (the rows of the `k` strict chunks) is
a prefix of the input rows — so every input row is still delivered at least
once and the fallback pass covers the input exactly once in order, but the
rows of `p` reach the consumer twice. -/
theorem c1_chunk_reader_coverage (src : CsvSource) (sk cs : Nat) (hcs : 0 < cs) :
    (src.strictFailAfter = none →
      iter_chunks_with_fallback src sk cs = .ok (batchesOf src sk cs) ∧
      flatRows (batchesOf src sk cs) = src.rows.drop sk) ∧
    (∀ k, src.strictFailAfter = some k → src.fallbackOk = true →
      iter_chunks_with_fallback src sk cs =
        .ok ((batchesOf src sk cs).take k ++ batchesOf src sk cs) ∧
      flatRows ((batchesOf src sk cs).take k ++ batchesOf src sk cs) =
        flatRows ((batchesOf src sk cs).take k) ++ src.rows.drop sk ∧
      ∃ t, flatRows ((batchesOf src sk cs).take k) ++ t = src.rows.drop sk) := by
  constructor
  · intro h
    refine ⟨?_, flatRows_batchesOf src sk cs hcs⟩
    simp [iter_chunks_with_fallback, h]
  · intro k hk hfb
    refine ⟨?_, ?_, ?_⟩
    · simp [iter_chunks_with_fallback, hk, hfb]
    · rw [flatRows_append, flatRows_batchesOf src sk cs hcs]
    · refine ⟨flatRows ((batchesOf src sk cs).drop k), ?_⟩
      rw [flatRows_take_append_drop, flatRows_batchesOf src sk cs hcs]

/-- A source on which the strict pass succeeds, for the C1 witness. -/
def okSrc : CsvSource := ⟨1, [[some "a"], [some "b"]], none, true⟩

/-- C1 witness: the amended coverage theorem applied to a concrete
successfully strict-parsed source. -/
theorem c1_chunk_reader_coverage_witness :
    0 < 1 ∧
    (iter_chunks_with_fallback okSrc 0 1 = .ok (batchesOf okSrc 0 1) ∧
      flatRows (batchesOf okSrc 0 1) = okSrc.rows.drop 0) :=
  ⟨by decide, (c1_chunk_reader_coverage okSrc 0 1 (by decide)).1 rfl⟩

/-! ## Lemmas: dictionary key membership -/

theorem dictHasKey_eq_false (d : ChannelDict) (k : String)
    (h : ∀ p ∈ d, p.1 ≠ k) : dictHasKey d k = false := by
  induction d with
  | nil => rfl
  | cons p ps ih =>
    simp only [dictHasKey, Bool.or_eq_false_iff, decide_eq_false_iff_not]
    exact ⟨h p (List.mem_cons_self p ps), ih (fun q hq => h q (List.mem_cons_of_mem p hq))⟩

theorem ne_nan_of_toLower_ne (s : String) (h : toLowerStr s ≠ "nan") : s ≠ "nan" := by
  intro hs
  subst hs
  exact h (by decide)

/-! ## Claim C2 -/

/-- C2: for a row batch whose column count covers both fixed positions
(asset column 3, channel column 6), the matcher emits exactly one record per
row whose cleaned channel cell is a key of the mapping; and for a mapping
whose keys satisfy the loader invariant (non-empty, not case-insensitively
"nan"), a batch whose channel cells are all absent or blank after cleaning
yields no matches (and no error: `matchBatch` is total). -/
theorem c2_matcher_round_trip (dict : ChannelDict) (b : Batch)
    (hcols : max ASSET_COL_IDX CHANNEL_COL_IDX < b.ncols) :
    (matchBatch dict b).length =
      b.rows.countP (fun r => dictHasKey dict (chCell r)) ∧
    ((∀ p ∈ dict, p.1 ≠ "" ∧ toLowerStr p.1 ≠ "nan") →
     (∀ r ∈ b.rows, r.getD CHANNEL_COL_IDX none = none ∨ chCell r = "") →
     matchBatch dict b = []) := by
  have hnle : ¬ (b.ncols ≤ max ASSET_COL_IDX CHANNEL_COL_IDX) := by omega
  constructor
  · simp [matchBatch, hnle, List.countP_eq_length_filter]
  · intro hinv hblank
    simp only [matchBatch, if_neg hnle, List.map_eq_nil_iff, List.filter_eq_nil_iff]
    intro r hr
    rcases hblank r hr with habs | hblk
    · have hch : chCell r = "nan" := by
        show cleanStr (cellStr (r.getD CHANNEL_COL_IDX none)) = "nan"
        rw [habs]
        decide
      rw [hch, dictHasKey_eq_false dict "nan"
        (fun p hp => ne_nan_of_toLower_ne p.1 (hinv p hp).2)]
      simp
    · rw [hblk, dictHasKey_eq_false dict "" (fun p hp => (hinv p hp).1)]
      simp

/-- The channel dictionary used by the C2 witness. -/
def dict₀ : ChannelDict := [("c1", "Name1")]

/-- A 7-column batch with one matching row and one non-matching row. -/
def batchM : Batch :=
  ⟨7, [[some "x0", some "x1", some "x2", some "A1", some "x4", some "x5", some "c1"],
       [none, none, none, none, none, none, some "zz"]]⟩

/-- A 7-column batch whose channel cells are all absent or blank. -/
def batchBlank : Batch :=
  ⟨7, [[some "a", none, none, some "x", none, none, none],
       [some "a", none, none, some "x", none, none, some "  "]]⟩

/-- C2 witness: the round-trip count on a concrete mixed batch, and the
zero-match boundary on a concrete absent/blank batch. -/
theorem c2_matcher_round_trip_witness :
    (matchBatch dict₀ batchM).length =
      batchM.rows.countP (fun r => dictHasKey dict₀ (chCell r)) ∧
    matchBatch dict₀ batchBlank = [] :=
  ⟨(c2_matcher_round_trip dict₀ batchM (by decide)).1,
   (c2_matcher_round_trip dict₀ batchBlank (by decide)).2 (by decide) (by decide)⟩

/-! ## Lemmas: deduplication and sorting -/

theorem keyMem_eq_true_iff (k : String × String) (seen : List (String × String)) :
    keyMem k seen = true ↔ k ∈ seen := by
  induction seen with
  | nil => simp [keyMem]
  | cons x xs ih =>
    simp only [keyMem, Bool.or_eq_true, decide_eq_true_eq, ih, List.mem_cons]
    constructor
    · rintro (h | h)
      · exact Or.inl h.symm
      · exact Or.inr h
    · rintro (h | h)
      · exact Or.inl h.symm
      · exact Or.inr h

theorem countP_dedupFirst (k : String × String) :
    ∀ (l : List MatchRecord) (seen : List (String × String)),
      (dedupFirst l seen).countP (fun x => decide (recKey x = k)) =
        if k ∈ seen then 0
        else if l.any (fun x => decide (recKey x = k)) then 1 else 0 := by
  intro l
  induction l with
  | nil => intro seen; simp [dedupFirst]
  | cons r rs ih =>
    intro seen
    by_cases hmem : keyMem (recKey r) seen = true
    · have hrk : recKey r ∈ seen := (keyMem_eq_true_iff _ _).1 hmem
      have hstep : dedupFirst (r :: rs) seen = dedupFirst rs seen := by
        simp [dedupFirst, hmem]
      rw [hstep, ih seen]
      by_cases hk : k ∈ seen
      · rw [if_pos hk, if_pos hk]
      · have hne : (decide (recKey r = k)) = false := by
          simp only [decide_eq_false_iff_not]
          intro he
          exact hk (he ▸ hrk)
        rw [if_neg hk, if_neg hk, List.any_cons, hne, Bool.false_or]
    · have hrk : recKey r ∉ seen := fun hin => hmem ((keyMem_eq_true_iff _ _).2 hin)
      have hstep : dedupFirst (r :: rs) seen = r :: dedupFirst rs (recKey r :: seen) := by
        simp [dedupFirst, hmem]
      rw [hstep, List.countP_cons, ih (recKey r :: seen)]
      by_cases hrkk : recKey r = k
      · have hkcons : k ∈ recKey r :: seen := by
          rw [← hrkk]; exact List.mem_cons_self _ _
        have hkseen : k ∉ seen := fun hin => hrk (by rw [hrkk]; exact hin)
        have htrue : (decide (recKey r = k)) = true := by simp [hrkk]
        rw [if_pos hkcons, if_neg hkseen, List.any_cons, htrue]
        simp
      · have hne : (decide (recKey r = k)) = false := by simp [hrkk]
        by_cases hk : k ∈ seen
        · have hkcons : k ∈ recKey r :: seen := List.mem_cons_of_mem _ hk
          rw [if_pos hkcons, if_pos hk, hne]
          simp
        · have hkcons : k ∉ (recKey r :: seen) := by
            intro hin
            rcases List.mem_cons.1 hin with he | hin2
            · exact hrkk he.symm
            · exact hk hin2
          rw [if_neg hkcons, if_neg hk, List.any_cons]
          simp [hne]

theorem insertRec_perm (r : MatchRecord) (l : List MatchRecord) :
    (insertRec r l).Perm (r :: l) := by
  induction l with
  | nil => exact List.Perm.refl _
  | cons x xs ih =>
    by_cases h : recLE r x = true
    · simp only [insertRec, if_pos h]
      exact List.Perm.refl _
    · simp only [insertRec, if_neg h]
      exact (List.Perm.cons x ih).trans (List.Perm.swap r x xs)

theorem sortRecords_perm (l : List MatchRecord) : (sortRecords l).Perm l := by
  induction l with
  | nil => exact List.Perm.refl _
  | cons r rs ih =>
    exact (insertRec_perm r (sortRecords rs)).trans (List.Perm.cons r ih)

/-! ## Claim C3 -/

/-- C3: the aggregator concatenates the per-file match collections in
processing order, deduplicates on (Asset ID, Channel ID) keeping the first
occurrence, and sorts ascending by (Channel Name, Asset ID): on records with
names ["B", "A", "A"] and asset ids ["2", "1", "3"] the output order is
[("1", "A"), ("3", "A"), ("2", "B")], and every (asset, channel) pair present
in the concatenated input appears exactly once in the final table. -/
theorem c3_aggregator :
    final_df [[⟨"2", "u", "B"⟩, ⟨"1", "v", "A"⟩, ⟨"3", "w", "A"⟩]] =
      [⟨"1", "v", "A"⟩, ⟨"3", "w", "A"⟩, ⟨"2", "u", "B"⟩] ∧
    ∀ (rss : List (List MatchRecord)) (r : MatchRecord), r ∈ rss.flatten →
      (final_df rss).countP (fun x => decide (recKey x = recKey r)) = 1 := by
  constructor
  · decide
  · intro rss r hr
    unfold final_df
    rw [(sortRecords_perm _).countP_eq]
    rw [countP_dedupFirst (recKey r) rss.flatten []]
    have hany : rss.flatten.any (fun x => decide (recKey x = recKey r)) = true :=
      List.any_eq_true.2 ⟨r, hr, by simp⟩
    simp [hany]

/-- Two files reporting the same (asset, channel) pair, for the C3 witness. -/
def rss₀ : List (List MatchRecord) := [[⟨"1", "c", "A"⟩], [⟨"1", "c", "A"⟩]]

/-- C3 witness: a pair occurring in two files appears exactly once in the
final table. -/
theorem c3_aggregator_witness :
    (⟨"1", "c", "A"⟩ : MatchRecord) ∈ rss₀.flatten ∧
    (final_df rss₀).countP
      (fun x => decide (recKey x = recKey ⟨"1", "c", "A"⟩)) = 1 :=
  ⟨by decide, c3_aggregator.2 rss₀ ⟨"1", "c", "A"⟩ (by decide)⟩

/-! ## Lemmas: cleaning produces trimmed, nbsp-free strings -/

theorem mem_dropWhile_imp (p : Char → Bool) (x : Char) :
    ∀ l : List Char, x ∈ l.dropWhile p → x ∈ l := by
  intro l
  induction l with
  | nil =>
    intro h
    rw [List.dropWhile_nil] at h
    cases h
  | cons y ys ih =>
    intro h
    rw [List.dropWhile_cons] at h
    by_cases hy : p y = true
    · rw [if_pos hy] at h
      exact List.mem_cons_of_mem y (ih h)
    · rw [if_neg hy] at h
      exact h

theorem mem_trimChars (x : Char) (l : List Char) (h : x ∈ trimChars l) : x ∈ l := by
  unfold trimChars at h
  rw [List.mem_reverse] at h
  have h2 := mem_dropWhile_imp isStripChar x _ h
  rw [List.mem_reverse] at h2
  exact mem_dropWhile_imp isStripChar x _ h2

theorem nbsp_not_mem_replaceNbsp (l : List Char) : nbsp ∉ replaceNbsp l := by
  intro h
  rcases List.mem_map.1 h with ⟨c, _, hc⟩
  by_cases hcn : c = nbsp
  · rw [if_pos hcn] at hc
    exact absurd hc (by decide)
  · rw [if_neg hcn] at hc
    exact hcn hc

theorem nbsp_not_mem_cleanStr (s : String) : nbsp ∉ (cleanStr s).data := by
  intro h
  exact nbsp_not_mem_replaceNbsp s.data (mem_trimChars nbsp _ h)

theorem dropWhile_dropWhile_self (p : Char → Bool) :
    ∀ l : List Char, (l.dropWhile p).dropWhile p = l.dropWhile p := by
  intro l
  induction l with
  | nil => rfl
  | cons x xs ih =>
    rw [List.dropWhile_cons]
    by_cases hx : p x = true
    · rw [if_pos hx]
      exact ih
    · rw [if_neg hx, List.dropWhile_cons, if_neg hx]

theorem length_dropWhile_le2 (p : Char → Bool) :
    ∀ l : List Char, (l.dropWhile p).length ≤ l.length := by
  intro l
  induction l with
  | nil => simp
  | cons x xs ih =>
    rw [List.dropWhile_cons]
    by_cases hx : p x = true
    · rw [if_pos hx]
      exact Nat.le_trans ih (Nat.le_succ _)
    · rw [if_neg hx]

theorem dropWhile_append_eq_self {u w : List Char}
    (h : (u ++ w).dropWhile isStripChar = u ++ w) :
    u.dropWhile isStripChar = u := by
  cases u with
  | nil => rfl
  | cons x u2 =>
    cases hx : isStripChar x with
    | false => rw [List.dropWhile_cons, if_neg (by simp [hx])]
    | true =>
      exfalso
      rw [List.cons_append, List.dropWhile_cons, if_pos hx] at h
      have hlen := congrArg List.length h
      have hle := length_dropWhile_le2 isStripChar (u2 ++ w)
      rw [hlen] at hle
      simp at hle

theorem trimChars_trimChars (l : List Char) :
    trimChars (trimChars l) = trimChars l := by
  have hA := dropWhile_dropWhile_self isStripChar
  have hrev : (trimChars l).reverse = (l.dropWhile isStripChar).reverse.dropWhile isStripChar := by
    unfold trimChars
    exact List.reverse_reverse _
  have h1 : (l.dropWhile isStripChar).reverse =
      (l.dropWhile isStripChar).reverse.takeWhile isStripChar ++
        (l.dropWhile isStripChar).reverse.dropWhile isStripChar :=
    (List.takeWhile_append_dropWhile _ _).symm
  have hdecomp : l.dropWhile isStripChar =
      trimChars l ++ ((l.dropWhile isStripChar).reverse.takeWhile isStripChar).reverse := by
    calc l.dropWhile isStripChar
        = (l.dropWhile isStripChar).reverse.reverse := (List.reverse_reverse _).symm
      _ = ((l.dropWhile isStripChar).reverse.takeWhile isStripChar ++
            (l.dropWhile isStripChar).reverse.dropWhile isStripChar).reverse := by rw [← h1]
      _ = ((l.dropWhile isStripChar).reverse.dropWhile isStripChar).reverse ++
            ((l.dropWhile isStripChar).reverse.takeWhile isStripChar).reverse :=
        List.reverse_append _ _
      _ = trimChars l ++ ((l.dropWhile isStripChar).reverse.takeWhile isStripChar).reverse := rfl
  have hB : (trimChars l).dropWhile isStripChar = trimChars l := by
    apply dropWhile_append_eq_self (w := ((l.dropWhile isStripChar).reverse.takeWhile isStripChar).reverse)
    rw [← hdecomp]
    exact hA l
  show (((trimChars l).dropWhile isStripChar).reverse.dropWhile isStripChar).reverse = trimChars l
  rw [hB, hrev, hA ((l.dropWhile isStripChar).reverse)]
  rfl

/-! ## Lemmas: membership in the built dictionary -/

theorem mem_dictInsert (d : ChannelDict) (k v : String) (q : String × String)
    (h : q ∈ dictInsert d k v) : q ∈ d ∨ q = (k, v) := by
  unfold dictInsert at h
  by_cases hk : dictHasKey d k = true
  · rw [if_pos hk] at h
    rcases List.mem_map.1 h with ⟨p, hp, hpq⟩
    by_cases hpk : p.1 = k
    · rw [if_pos hpk] at hpq
      exact Or.inr hpq.symm
    · rw [if_neg hpk] at hpq
      exact Or.inl (hpq ▸ hp)
  · rw [if_neg hk] at h
    rcases List.mem_append.1 h with h1 | h1
    · exact Or.inl h1
    · exact Or.inr (List.mem_singleton.1 h1)

theorem mem_buildDict_aux :
    ∀ (pairs : List (String × String)) (d : ChannelDict) (q : String × String),
      q ∈ pairs.foldl (fun d p => if validPair p then dictInsert d p.1 p.2 else d) d →
      q ∈ d ∨ ∃ p ∈ pairs, validPair p = true ∧ q = p := by
  intro pairs
  induction pairs with
  | nil =>
    intro d q h
    rw [List.foldl_nil] at h
    exact Or.inl h
  | cons p ps ih =>
    intro d q h
    rw [List.foldl_cons] at h
    rcases ih _ q h with hq | ⟨p2, hp2, hvp2, hq2⟩
    · by_cases hvp : validPair p = true
      · rw [if_pos hvp] at hq
        rcases mem_dictInsert d p.1 p.2 q hq with h1 | h1
        · exact Or.inl h1
        · refine Or.inr ⟨p, List.mem_cons_self p ps, hvp, ?_⟩
          rw [h1]
      · rw [if_neg hvp] at hq
        exact Or.inl hq
    · exact Or.inr ⟨p2, List.mem_cons_of_mem p hp2, hvp2, hq2⟩

/-! ## Claim C4 -/

/-- C4: every key and value of the mapping returned by the loader is a
non-empty string that is not the case-insensitive literal "nan", contains no
non-breaking space, and is trimmed (a fixed point of the whitespace trim);
entries failing validation are dropped (they never reach the mapping) and
the loader is total, so nothing is raised. -/
theorem c4_mapping_invariant (input : Option ExcelData) (k v : String)
    (h : (k, v) ∈ (load_channel_data input).1) :
    (k ≠ "" ∧ toLowerStr k ≠ "nan" ∧ nbsp ∉ k.data ∧ trimChars k.data = k.data) ∧
    (v ≠ "" ∧ toLowerStr v ≠ "nan" ∧ nbsp ∉ v.data ∧ trimChars v.data = v.data) := by
  cases input with
  | none => simp [load_channel_data] at h
  | some d =>
    simp only [load_channel_data] at h
    by_cases hc : d.ncols < 2
    · rw [if_pos hc] at h
      simp at h
    · rw [if_neg hc] at h
      unfold buildDict at h
      rcases mem_buildDict_aux (cleanedPairs d) [] (k, v) h with hin | ⟨p, hp, hvalid, heq⟩
      · simp at hin
      · rw [← heq] at hvalid
        simp only [validPair, Bool.and_eq_true, decide_eq_true_eq] at hvalid
        obtain ⟨⟨⟨hk1, hk2⟩, hv1⟩, hv2⟩ := hvalid
        rcases List.mem_map.1 hp with ⟨r, _, hfr⟩
        have hkv : (k, v) =
            (cleanStr (cellStr (r.getD 0 none)), cleanStr (cellStr (r.getD 1 none))) := by
          rw [heq, ← hfr]
        simp only [Prod.mk.injEq] at hkv
        obtain ⟨hk, hv⟩ := hkv
        refine ⟨⟨hk1, hk2, ?_, ?_⟩, hv1, hv2, ?_, ?_⟩
        · rw [hk]
          exact nbsp_not_mem_cleanStr _
        · rw [hk]
          exact trimChars_trimChars _
        · rw [hv]
          exact nbsp_not_mem_cleanStr _
        · rw [hv]
          exact trimChars_trimChars _

/-- A reference table with one valid entry (needing cleaning), one blank id
and one missing id, for the C4 witness. -/
def excelW : Option ExcelData :=
  some ⟨2, [[some " a\xa0b ", some "B"], [some "", some "x"], [none, some "y"]]⟩

/-- C4 witness: the cleaned entry ("a b", "B") is in the mapping built from
`excelW` and satisfies the invariant. -/
theorem c4_mapping_invariant_witness :
    ("a b", "B") ∈ (load_channel_data excelW).1 ∧
    (("a b" : String) ≠ "" ∧ toLowerStr "a b" ≠ "nan" ∧
      nbsp ∉ ("a b" : String).data ∧ trimChars ("a b" : String).data = ("a b" : String).data) ∧
    (("B" : String) ≠ "" ∧ toLowerStr "B" ≠ "nan" ∧
      nbsp ∉ ("B" : String).data ∧ trimChars ("B" : String).data = ("B" : String).data) :=
  ⟨by decide, c4_mapping_invariant excelW "a b" "B" (by decide)⟩

/-! ## Claim C5 -/

/-- C5: when both the strict and the fallback parse attempts fail on a file,
processing that file returns `None` (zero matches) together with a warning
identifying the file by its display name, and the results accumulated by the
main loop are exactly those of the same run without that file: every other
file is processed unaffected, and its results are still aggregated. -/
theorem c5_per_file_isolation (dict : ChannelDict) (name : String) (src : CsvSource)
    (k : Nat) (hk : src.strictFailAfter = some k) (hfb : src.fallbackOk = false)
    (l1 l2 : List (String × CsvSource)) :
    process_csv_for_channel_assets dict name src =
      ⟨none, some ("Error reading " ++ name ++ ": " ++ parseFailureMsg)⟩ ∧
    (runFiles dict (l1 ++ (name, src) :: l2)).1 = (runFiles dict (l1 ++ l2)).1 := by
  have hiter : iter_chunks_with_fallback src 0 CHUNK_SIZE = .error parseFailureMsg := by
    simp [iter_chunks_with_fallback, hk, hfb]
  have hproc : process_csv_for_channel_assets dict name src =
      ⟨none, some ("Error reading " ++ name ++ ": " ++ parseFailureMsg)⟩ := by
    simp [process_csv_for_channel_assets, hiter]
  refine ⟨hproc, ?_⟩
  have hfr : fileResult dict (name, src) = none := by
    simp [fileResult, hproc]
  show (l1 ++ (name, src) :: l2).filterMap (fileResult dict) =
    (l1 ++ l2).filterMap (fileResult dict)
  simp [List.filterMap_append, List.filterMap_cons, hfr]

/-- A parseable source with one matching row, for the C5 witness. -/
def goodSrc : CsvSource :=
  ⟨7, [[some "x0", some "x1", some "x2", some "A1", some "x4", some "x5", some "c1"]],
   none, true⟩

/-- A source on which both parse attempts fail, for the C5 witness. -/
def badSrc : CsvSource := ⟨1, [[some "z"]], some 0, false⟩

/-- C5 witness: isolation of a concrete doubly-unparseable file in a
two-file run. -/
theorem c5_per_file_isolation_witness :
    process_csv_for_channel_assets dict₀ "bad.csv" badSrc =
      ⟨none, some ("Error reading " ++ "bad.csv" ++ ": " ++ parseFailureMsg)⟩ ∧
    (runFiles dict₀ ([("good.csv", goodSrc)] ++ ("bad.csv", badSrc) :: [])).1 =
      (runFiles dict₀ ([("good.csv", goodSrc)] ++ [])).1 :=
  c5_per_file_isolation dict₀ "bad.csv" badSrc 0 rfl rfl [("good.csv", goodSrc)] []

/-! ## Claim C6 -/

/-- C6: a reference table that is unreadable (the `read_excel` call raises),
or that has fewer than two columns, makes the loader return an empty mapping
together with a diagnostic message instead of raising: both error cases are
ordinary return values of the total function `load_channel_data`. -/
theorem c6_loader_diagnostics (d : ExcelData) (hlt : d.ncols < 2) :
    load_channel_data none = ([], some errMsgExcel) ∧
    load_channel_data (some d) = ([], some errMsgCols) := by
  constructor
  · rfl
  · simp [load_channel_data, hlt]

/-- C6 witness: a one-column table. -/
theorem c6_loader_diagnostics_witness :
    (⟨1, [[some "a"]]⟩ : ExcelData).ncols < 2 ∧
    load_channel_data none = ([], some errMsgExcel) ∧
    load_channel_data (some ⟨1, [[some "a"]]⟩) = ([], some errMsgCols) :=
  ⟨by decide, c6_loader_diagnostics ⟨1, [[some "a"]]⟩ (by decide)⟩

/-! ## Lemmas: dictionary overwrite semantics -/

theorem dictFind_map_self (d : ChannelDict) (k v : String)
    (hk : dictHasKey d k = true) :
    dictFind (d.map (fun p => if p.1 = k then (k, v) else p)) k = some v := by
  induction d with
  | nil => simp [dictHasKey] at hk
  | cons p ps ih =>
    simp only [List.map_cons]
    by_cases hpk : p.1 = k
    · rw [if_pos hpk]
      simp [dictFind]
    · rw [if_neg hpk]
      have hk2 : dictHasKey ps k = true := by
        simp only [dictHasKey, Bool.or_eq_true, decide_eq_true_eq] at hk
        rcases hk with h | h
        · exact absurd h hpk
        · exact h
      simp [dictFind, hpk, ih hk2]

theorem dictFind_append_single (d : ChannelDict) (k v : String)
    (hk : dictHasKey d k = false) :
    dictFind (d ++ [(k, v)]) k = some v := by
  induction d with
  | nil => simp [dictFind]
  | cons p ps ih =>
    simp only [dictHasKey, Bool.or_eq_false_iff, decide_eq_false_iff_not] at hk
    simp [dictFind, hk.1, ih hk.2]

theorem dictFind_insert_self (d : ChannelDict) (k v : String) :
    dictFind (dictInsert d k v) k = some v := by
  unfold dictInsert
  by_cases hk : dictHasKey d k = true
  · rw [if_pos hk]
    exact dictFind_map_self d k v hk
  · rw [if_neg hk]
    exact dictFind_append_single d k v (Bool.not_eq_true _ ▸ hk)

theorem dictFind_map_ne (d : ChannelDict) (k v k2 : String) (hne : k2 ≠ k) :
    dictFind (d.map (fun p => if p.1 = k then (k, v) else p)) k2 = dictFind d k2 := by
  induction d with
  | nil => rfl
  | cons p ps ih =>
    simp only [List.map_cons]
    by_cases hpk : p.1 = k
    · rw [if_pos hpk]
      have h1 : ¬ (k = k2) := fun he => hne he.symm
      have h2 : ¬ (p.1 = k2) := by rw [hpk]; exact h1
      simp [dictFind, h1, h2, ih]
    · rw [if_neg hpk]
      by_cases hpk2 : p.1 = k2
      · simp [dictFind, hpk2]
      · simp [dictFind, hpk2, ih]

theorem dictFind_append_single_ne (d : ChannelDict) (k v k2 : String) (hne : k2 ≠ k) :
    dictFind (d ++ [(k, v)]) k2 = dictFind d k2 := by
  induction d with
  | nil =>
    have h1 : ¬ (k = k2) := fun he => hne he.symm
    simp [dictFind, h1]
  | cons p ps ih =>
    by_cases hpk2 : p.1 = k2
    · simp [dictFind, hpk2]
    · simp [dictFind, hpk2, ih]

theorem dictFind_insert_ne (d : ChannelDict) (k v k2 : String) (hne : k2 ≠ k) :
    dictFind (dictInsert d k v) k2 = dictFind d k2 := by
  unfold dictInsert
  by_cases hk : dictHasKey d k = true
  · rw [if_pos hk]
    exact dictFind_map_ne d k v k2 hne
  · rw [if_neg hk]
    exact dictFind_append_single_ne d k v k2 hne

/-- The label of the last valid occurrence of key `k` in the (cleaned) row
pairs, in row order — the first valid hit when scanning from the end. -/
def lastValidLabel (pairs : List (String × String)) (k : String) : Option String :=
  (pairs.reverse.find? (fun p => validPair p && decide (p.1 = k))).map Prod.snd

theorem dictFind_buildDict_gen (k : String) (pairs : List (String × String)) :
    ∀ d : ChannelDict,
      dictFind (pairs.foldl (fun d p => if validPair p then dictInsert d p.1 p.2 else d) d) k =
        (match lastValidLabel pairs k with
          | some v => some v
          | none => dictFind d k) := by
  induction pairs using List.reverseRecOn with
  | nil =>
    intro d
    simp [lastValidLabel]
  | append_singleton ps p ih =>
    intro d
    rw [List.foldl_append, List.foldl_cons, List.foldl_nil]
    have hlast : lastValidLabel (ps ++ [p]) k =
        (if (validPair p && decide (p.1 = k)) = true then some p.2
         else lastValidLabel ps k) := by
      unfold lastValidLabel
      rw [List.reverse_append]
      by_cases hpred : (validPair p && decide (p.1 = k)) = true
      · simp [List.find?, hpred]
      · simp only [Bool.not_eq_true] at hpred
        simp [List.find?, hpred]
    rw [hlast]
    by_cases hpred : (validPair p && decide (p.1 = k)) = true
    · rw [if_pos hpred]
      obtain ⟨hvp, hpk⟩ := Bool.and_eq_true_iff.1 hpred
      rw [if_pos hvp]
      rw [decide_eq_true_eq] at hpk
      rw [← hpk]
      exact dictFind_insert_self _ _ _
    · rw [if_neg hpred]
      by_cases hvp : validPair p = true
      · have hpk : ¬ (p.1 = k) := by
          intro he
          exact hpred (by simp [hvp, he])
        rw [if_pos hvp, dictFind_insert_ne _ _ _ _ (fun he => hpk he.symm)]
        exact ih d
      · rw [if_neg hvp]
        exact ih d

/-! ## Claim C9 -/

/-- C9: on a readable reference table with at least two columns, the loader
reports no diagnostic, and the label stored for any key is the one of the
last valid row (in row order) whose cleaned identifier equals that key —
later rows overwrite earlier ones, with no error for the collision. -/
theorem c9_last_occurrence_wins (d : ExcelData) (hc : 2 ≤ d.ncols) (k : String) :
    (load_channel_data (some d)).2 = none ∧
    dictFind (load_channel_data (some d)).1 k = lastValidLabel (cleanedPairs d) k := by
  have hnc : ¬ (d.ncols < 2) := by omega
  constructor
  · simp [load_channel_data, hnc]
  · simp only [load_channel_data, if_neg hnc]
    unfold buildDict
    rw [dictFind_buildDict_gen k (cleanedPairs d) []]
    cases lastValidLabel (cleanedPairs d) k with
    | none => rfl
    | some v => rfl

/-- A reference table with two valid rows sharing the identifier "a", for
the C9 witness. -/
def excelDup : ExcelData := ⟨2, [[some "a", some "X"], [some "a", some "Y"]]⟩

/-- C9 witness: on `excelDup` the stored label for "a" is the later "Y",
with no diagnostic. -/
theorem c9_last_occurrence_wins_witness :
    2 ≤ excelDup.ncols ∧
    ((load_channel_data (some excelDup)).2 = none ∧
      dictFind (load_channel_data (some excelDup)).1 "a" =
        lastValidLabel (cleanedPairs excelDup) "a") ∧
    lastValidLabel (cleanedPairs excelDup) "a" = some "Y" :=
  ⟨by decide, c9_last_occurrence_wins excelDup (by decide) "a", by decide⟩

/-! ## Claim C10 -/

/-- Eligibility of an archive entry, as the claim describes it: a file entry
with a non-empty base name, not macOS metadata, not hidden, whose base name
ends with ".csv" case-insensitively. -/
def eligibleEntry (info : ZipEntry) : Bool :=
  !info.isDir &&
  decide (basenameOf info.filename ≠ "") &&
  !(strStarts (basenameOf info.filename) "__MACOSX" ||
      strContains info.filename "/__MACOSX") &&
  !(strStarts (basenameOf info.filename) ".") &&
  strEnds (toLowerStr (basenameOf info.filename)) ".csv"

theorem extract_step (info : ZipEntry) :
    (if info.isDir then none
     else
       if basenameOf info.filename = "" then none
       else if strStarts (basenameOf info.filename) "__MACOSX" ||
           strContains info.filename "/__MACOSX" then none
       else if strStarts (basenameOf info.filename) "." then none
       else if strEnds (toLowerStr (basenameOf info.filename)) ".csv" then
         some (basenameOf info.filename, info.content)
       else none : Option (String × CsvSource)) =
    (if eligibleEntry info then some (basenameOf info.filename, info.content)
     else none) := by
  by_cases hdir : info.isDir = true
  · simp [hdir, eligibleEntry]
  · rw [Bool.not_eq_true] at hdir
    by_cases hbase : basenameOf info.filename = ""
    · simp [hdir, hbase, eligibleEntry]
    · by_cases hmac : (strStarts (basenameOf info.filename) "__MACOSX" ||
          strContains info.filename "/__MACOSX") = true
      · simp [hdir, hbase, hmac, eligibleEntry]
      · rw [Bool.not_eq_true] at hmac
        by_cases hdot : strStarts (basenameOf info.filename) "." = true
        · simp [hdir, hbase, hmac, hdot, eligibleEntry]
        · rw [Bool.not_eq_true] at hdot
          by_cases hcsv : strEnds (toLowerStr (basenameOf info.filename)) ".csv" = true
          · simp [hdir, hbase, hmac, hdot, hcsv, eligibleEntry]
          · rw [Bool.not_eq_true] at hcsv
            simp [hdir, hbase, hmac, hdot, hcsv, eligibleEntry]

/-- C10: archive extraction yields exactly the eligible entries — file
entries with non-empty base name, not macOS metadata ("__MACOSX"), not
hidden, whose base name ends with ".csv" case-insensitively — in archive
order, each paired with its base name as display name; every other entry
(including non-.csv files) is silently skipped. -/
theorem c10_zip_extraction_filter (entries : List ZipEntry) :
    extract_csv_filelikes_from_zip entries =
      (entries.filter eligibleEntry).map
        (fun info => (basenameOf info.filename, info.content)) := by
  induction entries with
  | nil => rfl
  | cons info rest ih =>
    simp only [extract_csv_filelikes_from_zip] at ih ⊢
    rw [List.filterMap_cons, List.filter_cons]
    by_cases he : eligibleEntry info = true
    · rw [extract_step info, if_pos he, if_pos he, List.map_cons, ih]
    · rw [extract_step info, if_neg he, if_neg he, ih]

/-! ## Claim C7 -/

/-- C7: a run with more than 12 directly supplied files, or with an archive
containing zero or more than 12 eligible entries, stops with an error during
input preparation — before any per-file processing — and yields no result
table at all (the run's outcome is the bare error message). -/
theorem c7_cap_enforcement (excel : Option ExcelData)
    (csvs : List (String × CsvSource)) (zipU : Option ZipUpload) :
    (MAX_CSV_FILES < csvs.length →
      runApp excel csvs zipU = .error (capMsg csvs.length)) ∧
    (∀ z, zipU = some z → csvs.length ≤ MAX_CSV_FILES → z.readable = true →
      (extract_csv_filelikes_from_zip z.entries = [] →
        runApp excel csvs zipU = .error zipEmptyMsg) ∧
      (MAX_CSV_FILES < (extract_csv_filelikes_from_zip z.entries).length →
        runApp excel csvs zipU =
          .error (zipCapMsg (extract_csv_filelikes_from_zip z.entries).length))) := by
  constructor
  · intro hcap
    simp [runApp, prepareInputs, hcap]
  · rintro z rfl hle hread
    have hnc : ¬ (MAX_CSV_FILES < csvs.length) := by omega
    constructor
    · intro hempty
      simp [runApp, prepareInputs, hnc, hread, hempty]
    · intro hzcap
      cases hext : extract_csv_filelikes_from_zip z.entries with
      | nil =>
        rw [hext] at hzcap
        simp [MAX_CSV_FILES] at hzcap
      | cons a as =>
        rw [hext] at hzcap
        have hzcap2 : MAX_CSV_FILES < as.length + 1 := by simpa using hzcap
        simp [runApp, prepareInputs, hnc, hread, hext, hzcap2]

/-- C7 witness: thirteen direct uploads are rejected with the cap message,
and a readable archive with no eligible entries is rejected with the
empty-archive message. -/
theorem c7_cap_enforcement_witness :
    runApp none (List.replicate 13 ("f.csv", badSrc)) none =
      .error (capMsg (List.replicate 13 ("f.csv", badSrc)).length) ∧
    runApp none [] (some ⟨true, []⟩) = .error zipEmptyMsg :=
  ⟨(c7_cap_enforcement none (List.replicate 13 ("f.csv", badSrc)) none).1 (by decide),
   ((c7_cap_enforcement none [] (some ⟨true, []⟩)).2 ⟨true, []⟩ rfl (by decide) rfl).1 rfl⟩

/-! ## Claim C8 -/

/-- A readable archive with one matching CSV entry. -/
def zipC : ZipUpload := ⟨true, [⟨"data.csv", false, goodSrc⟩]⟩

/-- A readable reference table binding "c1" to "Chan". -/
def excelC : Option ExcelData := some ⟨2, [[some "c1", some "Chan"]]⟩

/-- Thirteen direct uploads. -/
def csvs13 : List (String × CsvSource) := List.replicate 13 ("f.csv", badSrc)

/-- C8 (counterexample): the claim says that when both an archive and direct
CSV uploads are supplied, the archive takes precedence and the direct uploads
have no effect on the output.  With thirteen direct uploads alongside a valid
archive, the run is rejected by the direct-upload cap check (which runs
before the archive branch) instead of producing the archive's result table —
so the direct uploads do change the outcome. -/
theorem c8_counterexample :
    runApp excelC csvs13 (some zipC) = .error (capMsg 13) ∧
    runApp excelC [] (some zipC) = .ok ([⟨"A1", "c1", "Chan"⟩], []) ∧
    (Except.error (capMsg 13) : Except String (List MatchRecord × List String)) ≠
      .ok ([⟨"A1", "c1", "Chan"⟩], []) :=
  ⟨by decide, by decide, by decide⟩

/-- C8 (amended): when both an archive and at most 12 directly uploaded CSV
files are supplied, the archive takes precedence: the run's outcome is the
same as if no direct CSV files had been uploaded at all.  (With more than 12
direct uploads the run is instead rejected by the direct-upload cap check
before the archive is considered.) -/
theorem c8_zip_precedence (excel : Option ExcelData)
    (csvs : List (String × CsvSource)) (z : ZipUpload)
    (hle : csvs.length ≤ MAX_CSV_FILES) :
    runApp excel csvs (some z) = runApp excel [] (some z) := by
  have hnc : ¬ (MAX_CSV_FILES < csvs.length) := by omega
  have hnc0 : ¬ (MAX_CSV_FILES < ([] : List (String × CsvSource)).length) := by decide
  simp [runApp, prepareInputs, hnc, hnc0]

/-- C8 witness: one direct upload alongside the archive leaves the outcome
unchanged. -/
theorem c8_zip_precedence_witness :
    runApp excelC [("g.csv", goodSrc)] (some zipC) = runApp excelC [] (some zipC) :=
  c8_zip_precedence excelC [("g.csv", goodSrc)] zipC (by decide)

end ChannelAssetMapper
